import Mathlib

/-!
Shallow embedding of the voter-registry search-and-filter engine
(`apps/voters/views.py`, `apps/voters/public_views.py`, `apps/voters/models.py`,
`apps/voters/management/commands/import_voters_all.py`,
`apps/voters/management/commands/update_search_text.py`).

Strings are modelled over `List Char`; case-insensitive matching lowercases
both sides with `Char.toLower` (the embedding of Python `str.lower` /
Django `icontains`), and `str.strip()` is modelled by dropping whitespace
from both ends.
-/

namespace VoterApp

/-! ### String primitives -/

/-- Embedding of Python `str.strip()` on the character list. -/
def stripList (l : List Char) : List Char :=
  ((l.dropWhile Char.isWhitespace).reverse.dropWhile Char.isWhitespace).reverse

/-- Embedding of Python `str.strip()`. -/
def strip (s : String) : String := ⟨stripList s.toList⟩

/-- `listStarts s q` is true iff `q` is an initial segment of `s`
(embedding of SQL/Django `startswith`). -/
def listStarts : List Char → List Char → Bool
  | _, [] => true
  | [], _ :: _ => false
  | a :: as, b :: bs => a == b && listStarts as bs

/-- `listHas s q` is true iff `q` occurs contiguously inside `s`
(embedding of SQL/Django `contains`). -/
def listHas : List Char → List Char → Bool
  | [], q => q.isEmpty
  | a :: as, q => listStarts (a :: as) q || listHas as q

/-- Lowercased character list of a string (embedding of `str.lower()`). -/
def lowerList (s : String) : List Char := s.toList.map Char.toLower

/-- Django `icontains`: case-insensitive substring test. -/
def icontainsB (s q : String) : Bool := listHas (lowerList s) (lowerList q)

/-- Django `istartswith`: case-insensitive initial-segment test. -/
def istartsB (s q : String) : Bool := listStarts (lowerList s) (lowerList q)

/-- Django `iexact`: case-insensitive equality. -/
def iexactB (s q : String) : Bool := lowerList s == lowerList q

/-- Django `startswith` (case-sensitive). -/
def startsB (s q : String) : Bool := listStarts s.toList q.toList

/-- `icontains` against a nullable column: SQL `NULL` never matches. -/
def icontainsOpt (s : Option String) (q : String) : Bool :=
  match s with
  | none => false
  | some t => icontainsB t q

/-- Total lexicographic order on character lists by code point, the embedding
of the backing store's ascending string ordering used by `order_by`. -/
def lexLe : List Char → List Char → Bool
  | [], _ => true
  | _ :: _, [] => false
  | a :: as, b :: bs =>
    if a.toNat < b.toNat then true
    else if b.toNat < a.toNat then false
    else lexLe as bs

/-- Embedding of Python `str.isdigit()` (ASCII digits; empty string is not
a digit string). -/
def isDigitStr (s : String) : Bool := !s.toList.isEmpty && s.toList.all Char.isDigit

/-! ### Generic two-key sort relations

`order_by('-key', 'tiebreak')` and Python's `sort(key=(k, s))` are embedded as
total preorders combining a numeric key with a lexicographic string tie-break. -/

/-- Descending primary `Nat` key, ascending lexicographic tie-break:
the embedding of Django `order_by('-relevance', field)`. -/
def descLE (k : α → Nat) (s : α → List Char) (a b : α) : Bool :=
  decide (k b < k a) || (k a == k b && lexLe (s a) (s b))

/-- Ascending primary `Nat` key, ascending lexicographic tie-break:
the embedding of Python `sort(key=lambda x: (group, text))`. -/
def ascLE (k : α → Nat) (s : α → List Char) (a b : α) : Bool :=
  decide (k a < k b) || (k a == k b && lexLe (s a) (s b))

/-- Sorting a list by a Bool-valued total preorder, the embedding of the
store's `ORDER BY` / Python's stable sort (the claims only rely on the
result being sorted and a permutation of the input). -/
def sortWith (le : α → α → Bool) (l : List α) : List α :=
  List.insertionSort (fun a b => le a b = true) l

/-! ### Data model (`apps/voters/models.py`) -/

/-- Embedding of the `Voter` model: the free-text columns used by search
(`NULL` is modelled as `""` for the always-queried columns, which SQL match
predicates treat identically); `search_text` is kept nullable because the
code paths that create records without computing it matter here. -/
structure Voter where
  serial : String
  name : String
  voter_no : String
  father : String
  mother : String
  profession : String
  dob : String
  address : String
  category_id : Nat
  search_text : Option String
deriving DecidableEq, Repr

/-- `' '.join` on character lists. -/
def joinSp : List (List Char) → List Char
  | [] => []
  | [l] => l
  | l :: m :: ls => l ++ ' ' :: joinSp (m :: ls)

/-- Embedding of `Voter.build_search_text`: space-join the non-empty
constituent fields in source order, then lowercase. -/
def build_search_text (v : Voter) : String :=
  ⟨(joinSp (((
      [v.serial, v.name, v.father, v.mother, v.address, v.voter_no, v.profession]).filter
        (fun p => !p.toList.isEmpty)).map String.toList)).map Char.toLower⟩

/-- Embedding of `Voter.save`: recompute `search_text` and persist. -/
def saveVoter (v : Voter) : Voter :=
  { v with search_text := some (build_search_text v) }

/-- Embedding of the record constructed by `import_voters_all` and persisted
via `bulk_create` (which does not call `save`): `search_text` is left at its
model default, `None`. -/
def import_bulk_voter (serial name voter_no father mother profession dob address : String)
    (cat : Nat) : Voter :=
  { serial := serial, name := name, voter_no := voter_no, father := father,
    mother := mother, profession := profession, dob := dob, address := address,
    category_id := cat, search_text := none }

/-- Embedding of one step of the `update_search_text` management command:
set `search_text` from `build_search_text`, then `save(update_fields=...)`. -/
def update_search_text_run (v : Voter) : Voter :=
  saveVoter { v with search_text := some (build_search_text v) }

/-! ### Category tree (`Category` model, `get_category_descendants`) -/

/-- Embedding of a `Category` row: id and nullable parent link. -/
structure CatNode where
  id : Nat
  parent : Option Nat
deriving DecidableEq, Repr

/-- Embedding of `Category.objects.filter(parent=category)` followed by
taking ids: the child ids of `cid` in store `s`. -/
def childrenOf (s : List CatNode) (cid : Nat) : List Nat :=
  (s.filter (fun c => c.parent == some cid)).map (fun c => c.id)

/-- Fuel-indexed embedding of the recursion in `get_category_descendants`:
for each child, emit its id and recurse. The Python recursion has no fuel;
the fuel here only bounds recursion depth, and `descendantsAux_stable`
below shows the result is fuel-independent once the fuel covers the store,
i.e. the source recursion terminates on acyclic stores. -/
def descendantsAux (s : List CatNode) : Nat → Nat → List Nat
  | 0, _ => []
  | f + 1, cid => (childrenOf s cid).flatMap (fun ch => ch :: descendantsAux s f ch)

/-- Embedding of `get_category_descendants` (identical in `views.py` and
`public_views.py`). -/
def get_category_descendants (s : List CatNode) (cid : Nat) : List Nat :=
  descendantsAux s s.length cid

/-- The scope used by `voter_list` / `category_detail`:
`descendant_ids` with `category.id` appended. -/
def resolveScope (s : List CatNode) (cid : Nat) : List Nat :=
  get_category_descendants s cid ++ [cid]

/-- `rankOkB rk c` says node `c`'s rank is below its parent's rank.
A rank function with this property on every row is the shallow form of
"the parent graph is finite and acyclic". -/
def rankOkB (rk : Nat → Nat) (c : CatNode) : Bool :=
  match c.parent with
  | some p => decide (rk c.id < rk p)
  | none => true

/-- `ChildPath s a b`: `b` is reachable from `a` by one or more child links. -/
inductive ChildPath (s : List CatNode) : Nat → Nat → Prop
  | single {a b : Nat} : b ∈ childrenOf s a → ChildPath s a b
  | head {a b c : Nat} : b ∈ childrenOf s a → ChildPath s b c → ChildPath s a c

/-- A three-level demonstration store `1 → 2 → 3` used by witnesses. -/
def demoCats : List CatNode := [⟨1, none⟩, ⟨2, some 1⟩, ⟨3, some 2⟩]

/-- Height function witnessing acyclicity of `demoCats`. -/
def demoRk (a : Nat) : Nat := 3 - a

/-! ### Relevance search (`api_search_voters`, `public_api_search_voters`) -/

/-- Numeric-query relevance annotation (`Case`/`When` chain shared verbatim
by both endpoints). -/
def numRelevance (v : Voter) (q : String) : Nat :=
  if v.voter_no == q then 100
  else if startsB v.voter_no q then 90
  else if icontainsB v.voter_no q then 70
  else 50

/-- Text-query relevance annotation of the authenticated endpoint. -/
def textRelevance (v : Voter) (q : String) : Nat :=
  if iexactB v.name q then 100
  else if istartsB v.name q then 90
  else if icontainsB v.name q then 80
  else if icontainsB v.voter_no q then 75
  else if istartsB v.father q then 70
  else if istartsB v.mother q then 70
  else if icontainsB v.father q then 60
  else if icontainsB v.mother q then 60
  else if icontainsB v.address q then 50
  else 40

/-- Text-query relevance annotation of the public endpoint: its `Case`
chain stops after the father/mother `istartswith` 70 tiers and falls to
`default=40` — the father/mother-substring 60 tiers and the address 50
tier of the authenticated chain are absent. -/
def publicTextRelevance (v : Voter) (q : String) : Nat :=
  if iexactB v.name q then 100
  else if istartsB v.name q then 90
  else if icontainsB v.name q then 80
  else if icontainsB v.voter_no q then 75
  else if istartsB v.father q then 70
  else if istartsB v.mother q then 70
  else 40

/-- Candidate filter of the authenticated text search: the `Q(...)`
disjunction over name, father, mother, voter_no, address and the
precomputed `search_text` (against the lowercased query, which `icontains`
makes equivalent to the raw query). -/
def textMatch (v : Voter) (q : String) : Bool :=
  icontainsB v.name q || icontainsB v.father q || icontainsB v.mother q ||
    icontainsB v.voter_no q || icontainsB v.address q || icontainsOpt v.search_text q

/-- Candidate filter of the public text search: only name, father, mother
and voter_no participate. -/
def publicTextMatch (v : Voter) (q : String) : Bool :=
  icontainsB v.name q || icontainsB v.father q || icontainsB v.mother q ||
    icontainsB v.voter_no q

/-- Embedding of `api_search_voters` (authenticated): strip the query,
clamp the limit at 50, return `[]` for an empty query, and otherwise rank
the numeric or text candidates by `order_by('-relevance', tiebreak)` and
truncate. The response's `voters` list is returned; its `count` is the
list's length. -/
def api_search_voters (voters : List Voter) (rawQ : String) (reqLimit : Nat) : List Voter :=
  let q := strip rawQ
  let lim := min reqLimit 50
  if q.toList.length < 1 then []
  else if isDigitStr q then
    (sortWith (descLE (fun v => numRelevance v q) (fun v => v.voter_no.toList))
      (voters.filter (fun v => icontainsB v.voter_no q))).take lim
  else
    (sortWith (descLE (fun v => textRelevance v q) (fun v => v.name.toList))
      (voters.filter (fun v => textMatch v q))).take lim

/-- Embedding of `public_api_search_voters`: limit clamped at 20, queries
shorter than 2 characters rejected, the narrower candidate filter and the
relevance chain without the `address` tier. -/
def public_api_search_voters (voters : List Voter) (rawQ : String) (reqLimit : Nat) :
    List Voter :=
  let q := strip rawQ
  let lim := min reqLimit 20
  if q.toList.length < 2 then []
  else if isDigitStr q then
    (sortWith (descLE (fun v => numRelevance v q) (fun v => v.voter_no.toList))
      (voters.filter (fun v => icontainsB v.voter_no q))).take lim
  else
    (sortWith (descLE (fun v => publicTextRelevance v q) (fun v => v.name.toList))
      (voters.filter (fun v => publicTextMatch v q))).take lim

/-! ### Scope filters of `voter_list` and the suggestion endpoints -/

/-- `Category.objects.get(id=cid)` succeeds iff some row has that id. -/
def catExists (cats : List CatNode) (cid : Nat) : Bool :=
  cats.any (fun c => c.id == cid)

/-- `voter_area_id or union_id or upazila_id or district_id or category_id`:
the most specific scope parameter wins. -/
def selectScopeId (voterArea unionId upazilaId districtId categoryId : Option Nat) :
    Option Nat :=
  match voterArea with
  | some v => some v
  | none =>
    match unionId with
    | some v => some v
    | none =>
      match upazilaId with
      | some v => some v
      | none =>
        match districtId with
        | some v => some v
        | none => categoryId

/-- The hierarchical category filter of `voter_list` (and the public
`advanced_voter_search`): look the id up, and on `DoesNotExist` silently
keep the queryset unfiltered. -/
def voter_list_scope (cats : List CatNode) (voters : List Voter) (sel : Option Nat) :
    List Voter :=
  match sel with
  | none => voters
  | some cid =>
    if catExists cats cid then
      voters.filter (fun v => (resolveScope cats cid).contains v.category_id)
    else voters

/-- `voter_list`'s scope filtering over all five scope parameters. -/
def voter_list_filter (cats : List CatNode) (voters : List Voter)
    (voterArea unionId upazilaId districtId categoryId : Option Nat) : List Voter :=
  voter_list_scope cats voters (selectScopeId voterArea unionId upazilaId districtId categoryId)

/-- The inline scope filter of the suggestion endpoints: a supplied
`voter_area` id is applied directly as `category_id=...` with no existence
check; `union` and `upazila` ids are first looked up with `.first()` and
silently dropped when absent. -/
def suggestionScope (cats : List CatNode) (voters : List Voter)
    (voterArea unionId upazilaId : Option Nat) : List Voter :=
  match voterArea with
  | some va => voters.filter (fun v => v.category_id == va)
  | none =>
    match unionId with
    | some un =>
      if catExists cats un then
        voters.filter (fun v => (childrenOf cats un ++ [un]).contains v.category_id)
      else voters
    | none =>
      match upazilaId with
      | some up =>
        if catExists cats up then
          voters.filter (fun v =>
            (childrenOf cats up
              ++ ((cats.filter (fun c =>
                    match c.parent with
                    | some p => (childrenOf cats up).contains p
                    | none => false)).map (fun c => c.id))
              ++ [up]).contains v.category_id)
        else voters
      | none => voters

/-! ### Suggestion pipeline (`api_search_suggestions`, `public_api_suggestions`) -/

/-- Normalize the `field` parameter: strip, lowercase, and fall back to
`name` when outside the allow-list. -/
def normField (f : String) : String :=
  let g : String := ⟨(stripList f.toList).map Char.toLower⟩
  if (["name", "father", "mother", "address"] : List String).contains g then g else "name"

/-- Read the allow-listed field off a record. -/
def fieldValue (v : Voter) (field : String) : String :=
  if field == "father" then v.father
  else if field == "mother" then v.mother
  else if field == "address" then v.address
  else v.name

/-- First-occurrence exact deduplication, the embedding of SQL `DISTINCT`
on the projected column. -/
def dedupExactAux : List String → List String → List String
  | [], _ => []
  | v :: rest, seen =>
    if seen.contains v then dedupExactAux rest seen
    else v :: dedupExactAux rest (v :: seen)

/-- SQL `DISTINCT` over the value list. -/
def dedupExact (l : List String) : List String := dedupExactAux l []

/-- The Python dedup loop: skip blank values, dedup case-insensitively on
the raw (unstripped) value, emit the stripped value, stop once `limit`
entries are collected. `seen` holds lowercased raw values, `acc` the
collected entries in reverse. -/
def suggLoop (vals : List String) (seen : List (List Char)) (acc : List String)
    (lim : Nat) : List String :=
  match vals with
  | [] => acc.reverse
  | v :: rest =>
    if (stripList v.toList).isEmpty then suggLoop rest seen acc lim
    else if seen.contains (lowerList v) then suggLoop rest seen acc lim
    else if lim ≤ acc.length + 1 then ((⟨stripList v.toList⟩ : String) :: acc).reverse
    else suggLoop rest (lowerList v :: seen) ((⟨stripList v.toList⟩ : String) :: acc) lim

/-- Primary sort key of the final suggestion ordering: `0` when the entry's
lowercase form starts with the lowercase query, else `1`. -/
def suggGroup (q t : String) : Nat :=
  if listStarts (lowerList t) (lowerList q) then 0 else 1

/-- Shared body of both suggestion endpoints (`cap` is the trust-level
limit clamp, 15 authenticated / 10 public): scope, filter on the chosen
field, project and `DISTINCT`, slice to `2*limit`, dedup, sort by
(starts-with-query, lowercase value). -/
def suggestion_core (cats : List CatNode) (voters : List Voter) (rawQ rawField : String)
    (reqLimit cap : Nat) (voterArea unionId upazilaId : Option Nat) : List String :=
  let q := strip rawQ
  let lim := min reqLimit cap
  if q.toList.length < 2 then []
  else
    let fld := normField rawField
    let inScope := suggestionScope cats voters voterArea unionId upazilaId
    let vals := (dedupExact ((inScope.filter
      (fun v => icontainsB (fieldValue v fld) q)).map (fun v => fieldValue v fld))).take (lim * 2)
    sortWith (ascLE (fun t => suggGroup q t) (fun t => lowerList t))
      (suggLoop vals [] [] lim)

/-- Embedding of `api_search_suggestions` (authenticated, cap 15). -/
def api_search_suggestions (cats : List CatNode) (voters : List Voter)
    (rawQ rawField : String) (reqLimit : Nat)
    (voterArea unionId upazilaId : Option Nat) : List String :=
  suggestion_core cats voters rawQ rawField reqLimit 15 voterArea unionId upazilaId

/-- Embedding of `public_api_suggestions` (public, cap 10). -/
def public_api_suggestions (cats : List CatNode) (voters : List Voter)
    (rawQ rawField : String) (reqLimit : Nat)
    (voterArea unionId upazilaId : Option Nat) : List String :=
  suggestion_core cats voters rawQ rawField reqLimit 10 voterArea unionId upazilaId

/-! ### Status audit (`update_voter_status`, `VoterStatusAudit`) -/

/-- Embedding of a `VoterStatusAudit` row. -/
structure AuditEntry where
  voter_id : Nat
  changed_by : String
  old_status : String
  new_status : String
  remarks : String
  ip_address : String
deriving DecidableEq, Repr

/-- Outcome reported by `update_voter_status` via messages. -/
inductive StatusOutcome
  | invalid
  | changed
  | unchanged
deriving DecidableEq, Repr

/-- The mutable state touched by `update_voter_status`: the voter's status
column and the audit table restricted to that voter. -/
structure VoterStatusState where
  status : String
  audits : List AuditEntry
deriving DecidableEq, Repr

/-- `[s[0] for s in Voter.STATUS_CHOICES]`. -/
def valid_statuses : List String := ["present", "absent", "dead"]

/-- Embedding of the `update_voter_status` view body: strip the inputs,
reject invalid statuses, create exactly one audit row and update the status
when it differs, otherwise report `unchanged` with no writes. -/
def update_voter_status (voterId : Nat) (st : VoterStatusState)
    (rawStatus rawRemarks actor ip : String) : VoterStatusState × StatusOutcome :=
  let newStatus := strip rawStatus
  let remarks := strip rawRemarks
  if !(valid_statuses.contains newStatus) then (st, .invalid)
  else if st.status ≠ newStatus then
    ({ status := newStatus,
       audits := st.audits ++
         [⟨voterId, actor, st.status, newStatus, remarks, ip⟩] }, .changed)
  else (st, .unchanged)

/-! ### Rate limiter (`rate_limit`, `public_rate_limit`) -/

/-- Embedding of one pass through the rate-limiting decorator for a fixed
window: `cache` maps cache keys to counters, `key` is
`'rate_limit:<view>:<ip>'`. Returns the updated cache and whether the
wrapped view ran. When the counter has reached the limit the request is
rejected with 429 and — as in the source — the counter is NOT written. -/
def rate_limit_call (requests_per_minute : Nat) (cache : String → Nat) (key : String) :
    (String → Nat) × Bool :=
  let request_count := cache key
  if requests_per_minute ≤ request_count then (cache, false)
  else ((fun k => if k == key then request_count + 1 else cache k), true)

/-! ### Concrete records used by witnesses and counterexamples -/

/-- An all-blank voter record. -/
def blankVoter : Voter :=
  { serial := "", name := "", voter_no := "", father := "", mother := "",
    profession := "", dob := "", address := "", category_id := 0, search_text := none }

/-- A record matching the query only in `address`. -/
def c1voter : Voter := { blankVoter with address := "Dhaka" }

/-- A record whose `voter_no` is a single digit. -/
def c3voter : Voter := { blankVoter with voter_no := "5" }

/-- A plain named record. -/
def c10voter : Voter := { blankVoter with name := "Karim" }

/-- A named record owned by category 5. -/
def c7voter : Voter := { blankVoter with name := "Karim", category_id := 5 }

/-- Suggestion-source records whose name values differ by case and
surrounding whitespace. -/
def c8voterA : Voter := { blankVoter with name := "AB" }

/-- See `c8voterA`. -/
def c8voterB : Voter := { blankVoter with name := " ab" }

/-- Records for the numeric-ranking witness. -/
def w3exact : Voter := { blankVoter with voter_no := "12" }

/-- See `w3exact`. -/
def w3pre : Voter := { blankVoter with voter_no := "123" }

/-- See `w3exact`. -/
def w3sub : Voter := { blankVoter with voter_no := "312" }

/-- Records for the text-ranking witness. -/
def w1exact : Voter := { blankVoter with name := "Karim" }

/-- See `w1exact`. -/
def w1pre : Voter := { blankVoter with name := "Karim Uddin" }

/-! ### Theorems -/

theorem lexLe_total : ∀ l₁ l₂ : List Char, lexLe l₁ l₂ = true ∨ lexLe l₂ l₁ = true := by
  intro l₁
  induction l₁ with
  | nil => intro l₂; left; rfl
  | cons a as ih =>
    intro l₂
    cases l₂ with
    | nil => right; rfl
    | cons b bs =>
      simp only [lexLe]
      rcases Nat.lt_trichotomy a.toNat b.toNat with h | h | h
      · left; simp [h]
      · have h1 : ¬ a.toNat < b.toNat := by omega
        have h2 : ¬ b.toNat < a.toNat := by omega
        simp only [h1, h2, if_false]
        exact ih bs
      · right; simp [h]

theorem lexLe_trans : ∀ l₁ l₂ l₃ : List Char,
    lexLe l₁ l₂ = true → lexLe l₂ l₃ = true → lexLe l₁ l₃ = true := by
  intro l₁
  induction l₁ with
  | nil => intro l₂ l₃ _ _; rfl
  | cons a as ih =>
    intro l₂ l₃ h12 h23
    cases l₂ with
    | nil => simp [lexLe] at h12
    | cons b bs =>
      cases l₃ with
      | nil => simp [lexLe] at h23
      | cons c cs =>
        simp only [lexLe] at h12 h23 ⊢
        by_cases hab : a.toNat < b.toNat
        · by_cases hbc : b.toNat < c.toNat
          · have : a.toNat < c.toNat := by omega
            simp [this]
          · by_cases hcb : c.toNat < b.toNat
            · simp [hab, hbc, hcb] at h23
            · have : a.toNat < c.toNat := by omega
              simp [this]
        · by_cases hba : b.toNat < a.toNat
          · simp [hab, hba] at h12
          · by_cases hbc : b.toNat < c.toNat
            · have : a.toNat < c.toNat := by omega
              simp [this]
            · by_cases hcb : c.toNat < b.toNat
              · simp [hbc, hcb] at h23
              · have h1 : ¬ a.toNat < c.toNat := by omega
                have h2 : ¬ c.toNat < a.toNat := by omega
                simp only [h1, h2, if_false]
                simp only [hab, hba, if_false] at h12
                simp only [hbc, hcb, if_false] at h23
                exact ih bs cs h12 h23

theorem descLE_iff (k : α → Nat) (s : α → List Char) (a b : α) :
    descLE k s a b = true ↔ (k b < k a ∨ (k a = k b ∧ lexLe (s a) (s b) = true)) := by
  simp [descLE, Bool.or_eq_true, Bool.and_eq_true, beq_iff_eq, decide_eq_true_eq]

theorem ascLE_iff (k : α → Nat) (s : α → List Char) (a b : α) :
    ascLE k s a b = true ↔ (k a < k b ∨ (k a = k b ∧ lexLe (s a) (s b) = true)) := by
  simp [ascLE, Bool.or_eq_true, Bool.and_eq_true, beq_iff_eq, decide_eq_true_eq]

theorem descLE_total (k : α → Nat) (s : α → List Char) (a b : α) :
    descLE k s a b = true ∨ descLE k s b a = true := by
  rw [descLE_iff, descLE_iff]
  rcases Nat.lt_trichotomy (k a) (k b) with h | h | h
  · right; left; exact h
  · rcases lexLe_total (s a) (s b) with hl | hl
    · left; right; exact ⟨h, hl⟩
    · right; right; exact ⟨h.symm, hl⟩
  · left; left; exact h

theorem descLE_trans (k : α → Nat) (s : α → List Char) (a b c : α) :
    descLE k s a b = true → descLE k s b c = true → descLE k s a c = true := by
  rw [descLE_iff, descLE_iff, descLE_iff]
  rintro (h1 | ⟨h1, h1l⟩) (h2 | ⟨h2, h2l⟩)
  · left; omega
  · left; omega
  · left; omega
  · right; exact ⟨h1.trans h2, lexLe_trans _ _ _ h1l h2l⟩

theorem ascLE_total (k : α → Nat) (s : α → List Char) (a b : α) :
    ascLE k s a b = true ∨ ascLE k s b a = true := by
  rw [ascLE_iff, ascLE_iff]
  rcases Nat.lt_trichotomy (k a) (k b) with h | h | h
  · left; left; exact h
  · rcases lexLe_total (s a) (s b) with hl | hl
    · left; right; exact ⟨h, hl⟩
    · right; right; exact ⟨h.symm, hl⟩
  · right; left; exact h

theorem ascLE_trans (k : α → Nat) (s : α → List Char) (a b c : α) :
    ascLE k s a b = true → ascLE k s b c = true → ascLE k s a c = true := by
  rw [ascLE_iff, ascLE_iff, ascLE_iff]
  rintro (h1 | ⟨h1, h1l⟩) (h2 | ⟨h2, h2l⟩)
  · left; omega
  · left; omega
  · left; omega
  · right; exact ⟨h1.trans h2, lexLe_trans _ _ _ h1l h2l⟩

theorem sortWith_sorted (le : α → α → Bool)
    (htot : ∀ a b, le a b = true ∨ le b a = true)
    (htrans : ∀ a b c, le a b = true → le b c = true → le a c = true)
    (l : List α) : (sortWith le l).Pairwise (fun a b => le a b = true) := by
  letI : IsTotal α (fun a b => le a b = true) := ⟨htot⟩
  letI : IsTrans α (fun a b => le a b = true) := ⟨htrans⟩
  exact List.sorted_insertionSort _ l

theorem mem_sortWith (le : α → α → Bool) (l : List α) (x : α) :
    x ∈ sortWith le l ↔ x ∈ l :=
  List.mem_insertionSort _

theorem sortWith_length (le : α → α → Bool) (l : List α) :
    (sortWith le l).length = l.length :=
  List.length_insertionSort _ l

theorem sortWith_perm (le : α → α → Bool) (l : List α) :
    (sortWith le l).Perm l :=
  List.perm_insertionSort _ l

theorem rank_of_child {s : List CatNode} {rk : Nat → Nat}
    (h : ∀ c ∈ s, rankOkB rk c = true) {a b : Nat}
    (hb : b ∈ childrenOf s a) : rk b < rk a := by
  simp only [childrenOf, List.mem_map, List.mem_filter] at hb
  obtain ⟨c, ⟨hc, hp⟩, hid⟩ := hb
  have := h c hc
  simp only [rankOkB] at this
  rw [beq_iff_eq] at hp
  rw [hp] at this
  simp only [decide_eq_true_eq] at this
  rw [← hid]
  exact this

theorem childrenOf_empty_of_rank_zero {s : List CatNode} {rk : Nat → Nat}
    (h : ∀ c ∈ s, rankOkB rk c = true) {a : Nat} (ha : rk a = 0) :
    childrenOf s a = [] := by
  cases hcs : childrenOf s a with
  | nil => rfl
  | cons b bs =>
    have hb : b ∈ childrenOf s a := by rw [hcs]; exact List.mem_cons_self _ _
    have := rank_of_child h hb
    omega

theorem descendantsAux_nil_children {s : List CatNode} {a : Nat}
    (ha : childrenOf s a = []) (f : Nat) : descendantsAux s f a = [] := by
  cases f with
  | zero => rfl
  | succ f => simp [descendantsAux, ha]

/-- Fuel-independence of the traversal: with rank-decreasing parent links,
any two fuels at least the start node's rank give the same result. -/
theorem descendantsAux_stable {s : List CatNode} {rk : Nat → Nat}
    (h : ∀ c ∈ s, rankOkB rk c = true) :
    ∀ (N n f g : Nat), rk n ≤ N → rk n ≤ f → rk n ≤ g →
      descendantsAux s f n = descendantsAux s g n := by
  intro N
  induction N with
  | zero =>
    intro n f g hN _ _
    have hz : rk n = 0 := Nat.le_zero.mp hN
    have hc := childrenOf_empty_of_rank_zero h hz
    rw [descendantsAux_nil_children hc, descendantsAux_nil_children hc]
  | succ N ih =>
    intro n f g hN hf hg
    by_cases hz : rk n = 0
    · have hc := childrenOf_empty_of_rank_zero h hz
      rw [descendantsAux_nil_children hc, descendantsAux_nil_children hc]
    · have hf1 : 1 ≤ f := by omega
      have hg1 : 1 ≤ g := by omega
      obtain ⟨f', rfl⟩ : ∃ f', f = f' + 1 := ⟨f - 1, by omega⟩
      obtain ⟨g', rfl⟩ : ∃ g', g = g' + 1 := ⟨g - 1, by omega⟩
      simp only [descendantsAux]
      have hcong : ∀ cs : List Nat, (∀ ch ∈ cs, rk ch < rk n) →
          cs.flatMap (fun ch => ch :: descendantsAux s f' ch)
            = cs.flatMap (fun ch => ch :: descendantsAux s g' ch) := by
        intro cs
        induction cs with
        | nil => intro _; rfl
        | cons c cs ihc =>
          intro hcs
          have hc : rk c < rk n := hcs c (List.mem_cons_self _ _)
          simp only [List.flatMap_cons]
          rw [ih c f' g' (by omega) (by omega) (by omega),
            ihc (fun ch hch => hcs ch (List.mem_cons_of_mem _ hch))]
      exact hcong _ (fun ch hch => rank_of_child h hch)

/-- Soundness: anything the traversal emits is reachable by child links. -/
theorem childPath_of_mem_descendantsAux {s : List CatNode} :
    ∀ (f n m : Nat), m ∈ descendantsAux s f n → ChildPath s n m := by
  intro f
  induction f with
  | zero => intro n m hm; simp [descendantsAux] at hm
  | succ f ih =>
    intro n m hm
    simp only [descendantsAux, List.mem_flatMap, List.mem_cons] at hm
    obtain ⟨ch, hch, hm | hm⟩ := hm
    · exact hm ▸ ChildPath.single hch
    · exact ChildPath.head hch (ih ch m hm)

/-- Completeness: any node reachable by child links is emitted, given
enough fuel. -/
theorem mem_descendantsAux_of_childPath {s : List CatNode} {rk : Nat → Nat}
    (h : ∀ c ∈ s, rankOkB rk c = true) {n m : Nat}
    (hp : ChildPath s n m) : ∀ f, rk n ≤ f → m ∈ descendantsAux s f n := by
  induction hp with
  | @single a b hb =>
    intro f hf
    have hr := rank_of_child h hb
    obtain ⟨f', rfl⟩ : ∃ f', f = f' + 1 := ⟨f - 1, by omega⟩
    simp only [descendantsAux, List.mem_flatMap]
    exact ⟨b, hb, List.mem_cons_self _ _⟩
  | @head a b c hb _ ih =>
    intro f hf
    have hr := rank_of_child h hb
    obtain ⟨f', rfl⟩ : ∃ f', f = f' + 1 := ⟨f - 1, by omega⟩
    simp only [descendantsAux, List.mem_flatMap]
    exact ⟨b, hb, List.mem_cons_of_mem _ (ih f' (by omega))⟩

/-- C2: on a finite acyclic store (witnessed by a rank function that
decreases along child links), `resolveScope` — `get_category_descendants`
plus the node itself, as consumed by the search and category-detail views —
contains exactly the start node together with the nodes reachable from it
via child links, and it is `[n]` for a leaf. -/
theorem C2_resolveScope_spec (s : List CatNode) (rk : Nat → Nat)
    (h1 : ∀ c ∈ s, rankOkB rk c = true) (n : Nat) (h2 : rk n ≤ s.length) (m : Nat) :
    (m ∈ resolveScope s n ↔ ChildPath s n m ∨ m = n)
    ∧ (childrenOf s n = [] → resolveScope s n = [n]) := by
  constructor
  · constructor
    · intro hm
      simp only [resolveScope, List.mem_append, List.mem_singleton] at hm
      rcases hm with hm | hm
      · exact Or.inl (childPath_of_mem_descendantsAux _ n m hm)
      · exact Or.inr hm
    · intro hm
      simp only [resolveScope, List.mem_append, List.mem_singleton]
      rcases hm with hm | hm
      · exact Or.inl (mem_descendantsAux_of_childPath h1 hm s.length h2)
      · exact Or.inr hm
  · intro hleaf
    simp only [resolveScope, get_category_descendants,
      descendantsAux_nil_children hleaf, List.nil_append]

/-- Witness for C2 at the concrete store `1 → 2 → 3`. -/
theorem C2_resolveScope_spec_witness :
    ((3 ∈ resolveScope demoCats 1 ↔ ChildPath demoCats 1 3 ∨ 3 = 1)
      ∧ (childrenOf demoCats 1 = [] → resolveScope demoCats 1 = [1]))
    ∧ ((2 ∈ resolveScope demoCats 3 ↔ ChildPath demoCats 3 2 ∨ 2 = 3)
      ∧ (childrenOf demoCats 3 = [] → resolveScope demoCats 3 = [3])) :=
  ⟨C2_resolveScope_spec demoCats demoRk (by decide) 1 (by decide) 3,
   C2_resolveScope_spec demoCats demoRk (by decide) 3 (by decide) 2⟩

/-- C9: the descendant traversal terminates on every finite acyclic parent
graph of any depth: once the fuel covers the store size, the fuel-indexed
recursion has already reached its fixed point, i.e. the source recursion
bottoms out through empty child lists rather than running forever, with no
fixed 3-level assumption (the store and rank are arbitrary). -/
theorem C9_descendants_terminate (s : List CatNode) (rk : Nat → Nat)
    (h1 : ∀ c ∈ s, rankOkB rk c = true) (n : Nat) (h2 : rk n ≤ s.length)
    (f : Nat) (hf : s.length ≤ f) :
    descendantsAux s f n = get_category_descendants s n :=
  descendantsAux_stable h1 s.length n f s.length h2 (le_trans h2 hf) h2

/-- Witness for C9 at the concrete store `1 → 2 → 3` with surplus fuel. -/
theorem C9_descendants_terminate_witness :
    descendantsAux demoCats 10 1 = get_category_descendants demoCats 1 :=
  C9_descendants_terminate demoCats demoRk (by decide) 1 (by decide) 10 (by decide)

/-- A digit-only query is non-empty. -/
theorem digit_len_pos {q : String} (hd : isDigitStr q = true) : 1 ≤ q.toList.length := by
  unfold isDigitStr at hd
  cases h : q.toList with
  | nil => rw [h] at hd; simp at hd
  | cons a as => simp

/-- Membership in a sorted-and-truncated candidate list, when the limit
covers the store. -/
theorem mem_search_output {voters : List Voter} {p : Voter → Bool}
    (le : Voter → Voter → Bool) {lim : Nat} (hlim : voters.length ≤ lim) (v : Voter) :
    v ∈ (sortWith le (voters.filter p)).take lim ↔ v ∈ voters ∧ p v = true := by
  have hlen : (sortWith le (voters.filter p)).length ≤ lim := by
    rw [sortWith_length]
    exact le_trans (List.length_filter_le _ _) hlim
  rw [List.take_of_length_le hlen, mem_sortWith, List.mem_filter]

/-- The sorted-and-truncated output is pairwise ordered by descending key
with the lexicographic tie-break. -/
theorem pairwise_search_output (k : Voter → Nat) (s : Voter → List Char)
    (l : List Voter) (lim : Nat) :
    ((sortWith (descLE k s) l).take lim).Pairwise
      (fun a b => k b < k a ∨ (k a = k b ∧ lexLe (s a) (s b) = true)) := by
  have hs := sortWith_sorted (descLE k s) (descLE_total k s) (descLE_trans k s) l
  have hs2 := hs.imp (fun hab => (descLE_iff k s _ _).mp hab)
  exact List.Pairwise.sublist (List.take_sublist _ _) hs2

/-- C4: `update_voter_status` with a valid requested status equal to the
current one writes nothing and reports `unchanged`; with a differing valid
status it appends exactly one audit row whose `old_status` is the pre-call
status and `new_status` the requested one, and sets the voter's status to
the requested value, reporting `changed`. -/
theorem C4_update_voter_status_spec (voterId : Nat) (st : VoterStatusState)
    (rawStatus rawRemarks actor ip : String)
    (hvalid : valid_statuses.contains (strip rawStatus) = true) :
    (strip rawStatus = st.status →
      update_voter_status voterId st rawStatus rawRemarks actor ip = (st, .unchanged))
    ∧ (strip rawStatus ≠ st.status →
      update_voter_status voterId st rawStatus rawRemarks actor ip
        = ({ status := strip rawStatus,
             audits := st.audits ++
               [⟨voterId, actor, st.status, strip rawStatus, strip rawRemarks, ip⟩] },
           .changed)) := by
  constructor
  · intro h
    simp only [update_voter_status, hvalid, Bool.not_true, Bool.false_eq_true, if_false]
    rw [if_neg]
    intro hne
    exact hne h.symm
  · intro h
    simp only [update_voter_status, hvalid, Bool.not_true, Bool.false_eq_true, if_false]
    rw [if_pos (fun hh => h hh.symm)]

/-- Witness for C4: an unchanged call and a changed call. -/
theorem C4_update_voter_status_spec_witness :
    (update_voter_status 1 ⟨"present", []⟩ "present" "" "admin" "10.0.0.1"
      = (⟨"present", []⟩, .unchanged))
    ∧ (update_voter_status 1 ⟨"present", []⟩ "absent" "moved" "admin" "10.0.0.1"
      = (⟨strip "absent",
          [⟨1, "admin", "present", strip "absent", strip "moved", "10.0.0.1"⟩]⟩,
         .changed)) :=
  ⟨(C4_update_voter_status_spec 1 ⟨"present", []⟩ "present" "" "admin"
      "10.0.0.1" (by decide)).1 (by decide),
   (C4_update_voter_status_spec 1 ⟨"present", []⟩ "absent" "moved" "admin"
      "10.0.0.1" (by decide)).2 (by decide)⟩

/-- C5 counterexample: the claim says the counter is incremented on every
call including rejected ones; in the code a rejected call returns before
`cache.set`, so after an allowed call and a rejected call under limit 1 the
counter is still 1, not 2. -/
theorem C5_rate_limit_cex :
    ((rate_limit_call 1 (rate_limit_call 1 (fun _ => 0) "k").1 "k").2 = false)
    ∧ ((rate_limit_call 1 (rate_limit_call 1 (fun _ => 0) "k").1 "k").1 "k" = 1) := by
  constructor <;> rfl

/-- C5 amended: the counter for the key is incremented exactly when the
call is allowed (counter below the limit); a rejected call leaves the
cache untouched, and other keys are never modified. -/
theorem C5_rate_limit_amended (limit : Nat) (cache : String → Nat) (key other : String)
    (hother : (other == key) = false) :
    ((rate_limit_call limit cache key).2 = true ↔ cache key < limit)
    ∧ ((rate_limit_call limit cache key).1 key
        = (if (rate_limit_call limit cache key).2 then cache key + 1 else cache key))
    ∧ ((rate_limit_call limit cache key).1 other = cache other) := by
  unfold rate_limit_call
  by_cases h : limit ≤ cache key
  · rw [if_pos h]
    refine ⟨by simp; omega, by simp, rfl⟩
  · rw [if_neg h]
    refine ⟨by simp; omega, by simp, by simp [hother]⟩

/-- Witness for C5 amended at limit 2 on a fresh cache. -/
theorem C5_rate_limit_amended_witness :
    ((rate_limit_call 2 (fun _ => 0) "a").2 = true ↔ (fun _ => (0 : Nat)) "a" < 2)
    ∧ ((rate_limit_call 2 (fun _ => 0) "a").1 "a"
        = (if (rate_limit_call 2 (fun _ => 0) "a").2
            then (fun _ => (0 : Nat)) "a" + 1 else (fun _ => (0 : Nat)) "a"))
    ∧ ((rate_limit_call 2 (fun _ => 0) "a").1 "b" = (fun _ => (0 : Nat)) "b") :=
  C5_rate_limit_amended 2 (fun _ => 0) "a" "b" (by decide)

/-- C6 counterexample: a record created by the bulk-import path
(`bulk_create`, which bypasses `Voter.save`) is persisted with
`search_text = None`, not the recomputed concatenation, falsifying the
"including at record creation" part of the claim. -/
theorem C6_search_text_cex :
    (import_bulk_voter "1" "Karim" "123" "Abdul" "Fatima" "Farmer" "1990" "Dhaka" 7).search_text
      = none
    ∧ build_search_text
        (import_bulk_voter "1" "Karim" "123" "Abdul" "Fatima" "Farmer" "1990" "Dhaka" 7)
      = "1 karim abdul fatima dhaka 123 farmer" := by
  constructor
  · rfl
  · decide

/-- C6 amended: every record persisted through `Voter.save` (creation or
update) carries `search_text = build_search_text`, as does a record fixed
up by the `update_search_text` command; records persisted by the
bulk-import path keep `search_text = None` until that command runs. -/
theorem C6_search_text_amended (v : Voter) :
    (saveVoter v).search_text = some (build_search_text v)
    ∧ (update_search_text_run v).search_text = some (build_search_text v)
    ∧ ∀ serial name voter_no father mother profession dob address : String, ∀ cat : Nat,
        (import_bulk_voter serial name voter_no father mother profession dob
          address cat).search_text = none := by
  refine ⟨rfl, rfl, fun _ _ _ _ _ _ _ _ _ => rfl⟩

/-- C7 counterexample: the suggestion endpoints apply a supplied
`voter_area` id directly as a `category_id` filter with no existence
check, so an unknown id yields an artificially empty result instead of
being dropped; the same request without the scope returns the record. -/
theorem C7_scope_cex :
    catExists ([] : List CatNode) 7 = false
    ∧ api_search_suggestions [] [c7voter] "ka" "name" 10 (some 7) none none = []
    ∧ api_search_suggestions [] [c7voter] "ka" "name" 10 none none none = ["Karim"] := by
  refine ⟨rfl, rfl, by decide⟩

/-- C7 amended: unknown scope identifiers are silently dropped by
`voter_list` (for all five scope parameters, which funnel into one
identifier) and by the suggestion endpoints for `union` and `upazila`
scopes; a `voter_area` scope, by contrast, is applied unchecked as a
direct `category_id` filter. -/
theorem C7_scope_amended (cats : List CatNode) (voters : List Voter) (cid va : Nat)
    (h : catExists cats cid = false) :
    voter_list_scope cats voters (some cid) = voters
    ∧ voter_list_filter cats voters (some cid) none none none none = voters
    ∧ voter_list_filter cats voters none (some cid) none none none = voters
    ∧ voter_list_filter cats voters none none (some cid) none none = voters
    ∧ voter_list_filter cats voters none none none (some cid) none = voters
    ∧ voter_list_filter cats voters none none none none (some cid) = voters
    ∧ suggestionScope cats voters none (some cid) none = voters
    ∧ suggestionScope cats voters none none (some cid) = voters
    ∧ suggestionScope cats voters (some va) none none
        = voters.filter (fun v => v.category_id == va) := by
  have hs : voter_list_scope cats voters (some cid) = voters := by
    simp only [voter_list_scope, h, Bool.false_eq_true, if_false]
  refine ⟨hs, hs, hs, hs, hs, hs, ?_, ?_, rfl⟩
  · simp only [suggestionScope, h, Bool.false_eq_true, if_false]
  · simp only [suggestionScope, h, Bool.false_eq_true, if_false]

/-- Witness for C7 amended: unknown id 7 against an empty category store. -/
theorem C7_scope_amended_witness :
    voter_list_scope [] [c7voter] (some 7) = [c7voter]
    ∧ voter_list_filter [] [c7voter] (some 7) none none none none = [c7voter]
    ∧ voter_list_filter [] [c7voter] none (some 7) none none none = [c7voter]
    ∧ voter_list_filter [] [c7voter] none none (some 7) none none = [c7voter]
    ∧ voter_list_filter [] [c7voter] none none none (some 7) none = [c7voter]
    ∧ voter_list_filter [] [c7voter] none none none none (some 7) = [c7voter]
    ∧ suggestionScope [] [c7voter] none (some 7) none = [c7voter]
    ∧ suggestionScope [] [c7voter] none none (some 7) = [c7voter]
    ∧ suggestionScope [] [c7voter] (some 3) none none
        = [c7voter].filter (fun v => v.category_id == 3) :=
  C7_scope_amended [] [c7voter] 7 3 (by decide)

/-- C10: the public search endpoint returns the empty list (hence count 0)
for every request whose trimmed query is shorter than 2 characters, with
no candidate selection, scoring or highlighting; the authenticated
endpoint is laxer — a single-character query does return matches. -/
theorem C10_public_min_query (voters : List Voter) (rawQ : String) (reqLimit : Nat)
    (h : (stripList rawQ.toList).length < 2) :
    public_api_search_voters voters rawQ reqLimit = []
    ∧ api_search_voters [c10voter] "k" 10 = [c10voter] := by
  constructor
  · have h' : (strip rawQ).toList.length < 2 := h
    simp only [public_api_search_voters]
    rw [if_pos h']
  · decide

/-- Witness for C10 at a one-character query with surrounding whitespace. -/
theorem C10_public_min_query_witness :
    public_api_search_voters [c10voter] " k " 10 = []
    ∧ api_search_voters [c10voter] "k" 10 = [c10voter] :=
  C10_public_min_query [c10voter] " k " 10 (by decide)

/-- C3 counterexample: the public endpoint rejects one-character queries,
so for the single-digit query "5" its candidate set is empty even though a
record's `voter_no` contains "5" — the claim, quantified over every
digit-only query and both endpoints, fails there. -/
theorem C3_numeric_search_cex :
    public_api_search_voters [c3voter] "5" 10 = []
    ∧ icontainsB c3voter.voter_no "5" = true := by
  exact ⟨rfl, by decide⟩

/-- C3 amended: for digit-only queries that pass each endpoint's
minimum-length gate (any non-empty digit query on the authenticated
endpoint; length ≥ 2 on the public one), the candidate set is exactly the
records whose `voter_no` contains the query, the score is the first
matching tier of exact = 100 / startswith = 90 / contains = 70 / else 50,
and both outputs are ordered by descending score with ascending `voter_no`
as tie-break (so exact matches rank above prefix-only above
substring-only). -/
theorem C3_numeric_search_spec (voters : List Voter) (q : String) (reqLimit : Nat)
    (hq : strip q = q) (hd : isDigitStr q = true)
    (hlim : voters.length ≤ min reqLimit 20) (v : Voter) :
    (v ∈ api_search_voters voters q reqLimit ↔
      v ∈ voters ∧ icontainsB v.voter_no q = true)
    ∧ (2 ≤ q.toList.length →
        (v ∈ public_api_search_voters voters q reqLimit ↔
          v ∈ voters ∧ icontainsB v.voter_no q = true))
    ∧ ((numRelevance v q = 100 ↔ v.voter_no = q)
      ∧ (numRelevance v q = 90 ↔ v.voter_no ≠ q ∧ startsB v.voter_no q = true)
      ∧ (numRelevance v q = 70 ↔ v.voter_no ≠ q ∧ startsB v.voter_no q = false
          ∧ icontainsB v.voter_no q = true)
      ∧ (numRelevance v q = 50 ↔ v.voter_no ≠ q ∧ startsB v.voter_no q = false
          ∧ icontainsB v.voter_no q = false))
    ∧ (api_search_voters voters q reqLimit).Pairwise
        (fun a b => numRelevance b q < numRelevance a q
          ∨ (numRelevance a q = numRelevance b q
              ∧ lexLe a.voter_no.toList b.voter_no.toList = true))
    ∧ (public_api_search_voters voters q reqLimit).Pairwise
        (fun a b => numRelevance b q < numRelevance a q
          ∨ (numRelevance a q = numRelevance b q
              ∧ lexLe a.voter_no.toList b.voter_no.toList = true)) := by
  have hne1 : ¬ q.toList.length < 1 := by
    have := digit_len_pos hd
    omega
  have e1 : api_search_voters voters q reqLimit
      = (sortWith (descLE (fun v => numRelevance v q) (fun v => v.voter_no.toList))
          (voters.filter (fun v => icontainsB v.voter_no q))).take (min reqLimit 50) := by
    simp only [api_search_voters, hq]
    rw [if_neg hne1, if_pos hd]
  have hlim50 : voters.length ≤ min reqLimit 50 := by omega
  refine ⟨?_, ?_, ?_, ?_, ?_⟩
  · rw [e1]
    exact mem_search_output _ hlim50 v
  · intro hlen2
    have hne2 : ¬ q.toList.length < 2 := by omega
    have e2 : public_api_search_voters voters q reqLimit
        = (sortWith (descLE (fun v => numRelevance v q) (fun v => v.voter_no.toList))
            (voters.filter (fun v => icontainsB v.voter_no q))).take (min reqLimit 20) := by
      simp only [public_api_search_voters, hq]
      rw [if_neg hne2, if_pos hd]
    rw [e2]
    exact mem_search_output _ hlim v
  · unfold numRelevance
    split_ifs with h1 h2 h3 <;> simp_all [beq_iff_eq]
  · rw [e1]
    exact pairwise_search_output _ _ _ _
  · by_cases hlen2 : 2 ≤ q.toList.length
    · have hne2 : ¬ q.toList.length < 2 := by omega
      have e2 : public_api_search_voters voters q reqLimit
          = (sortWith (descLE (fun v => numRelevance v q) (fun v => v.voter_no.toList))
              (voters.filter (fun v => icontainsB v.voter_no q))).take (min reqLimit 20) := by
        simp only [public_api_search_voters, hq]
        rw [if_neg hne2, if_pos hd]
      rw [e2]
      exact pairwise_search_output _ _ _ _
    · have e0 : public_api_search_voters voters q reqLimit = [] := by
        simp only [public_api_search_voters, hq]
        rw [if_pos (by omega)]
      rw [e0]
      exact List.Pairwise.nil

/-- Witness for C3 on the query "12" over records with an exact, a prefix
and a substring `voter_no` match. -/
theorem C3_numeric_search_spec_witness :
    (w3exact ∈ api_search_voters [w3exact, w3pre, w3sub] "12" 10 ↔
      w3exact ∈ [w3exact, w3pre, w3sub] ∧ icontainsB w3exact.voter_no "12" = true)
    ∧ (w3exact ∈ public_api_search_voters [w3exact, w3pre, w3sub] "12" 10 ↔
        w3exact ∈ [w3exact, w3pre, w3sub] ∧ icontainsB w3exact.voter_no "12" = true)
    ∧ ((numRelevance w3exact "12" = 100 ↔ w3exact.voter_no = "12")
      ∧ (numRelevance w3exact "12" = 90 ↔ w3exact.voter_no ≠ "12"
          ∧ startsB w3exact.voter_no "12" = true)
      ∧ (numRelevance w3exact "12" = 70 ↔ w3exact.voter_no ≠ "12"
          ∧ startsB w3exact.voter_no "12" = false ∧ icontainsB w3exact.voter_no "12" = true)
      ∧ (numRelevance w3exact "12" = 50 ↔ w3exact.voter_no ≠ "12"
          ∧ startsB w3exact.voter_no "12" = false ∧ icontainsB w3exact.voter_no "12" = false))
    ∧ (api_search_voters [w3exact, w3pre, w3sub] "12" 10).Pairwise
        (fun a b => numRelevance b "12" < numRelevance a "12"
          ∨ (numRelevance a "12" = numRelevance b "12"
              ∧ lexLe a.voter_no.toList b.voter_no.toList = true))
    ∧ (public_api_search_voters [w3exact, w3pre, w3sub] "12" 10).Pairwise
        (fun a b => numRelevance b "12" < numRelevance a "12"
          ∨ (numRelevance a "12" = numRelevance b "12"
              ∧ lexLe a.voter_no.toList b.voter_no.toList = true)) := by
  have h := C3_numeric_search_spec [w3exact, w3pre, w3sub] "12" 10 (by decide) (by decide)
    (by decide) w3exact
  exact ⟨h.1, h.2.1 (by decide), h.2.2.1, h.2.2.2.1, h.2.2.2.2⟩

/-- C1 counterexample: a record matching the text query only in `address`
is a candidate of the authenticated search (the claim's candidate set) but
the public endpoint's filter omits `address` and `search_text`, so the
public candidate set excludes it — the claim, asserted for both
operations, fails on the public one. -/
theorem C1_text_search_cex :
    public_api_search_voters [c1voter] "dhaka" 10 = []
    ∧ textMatch c1voter "dhaka" = true
    ∧ api_search_voters [c1voter] "dhaka" 10 = [c1voter] := by
  refine ⟨rfl, by decide, by decide⟩

set_option maxHeartbeats 2000000 in
/-- C1 amended: for non-digit queries, the authenticated candidate set is
exactly the records where name, father, mother, voter_no, address or the
precomputed search_text contains the query case-insensitively, scored by
the claimed first-matching-tier rule; the public candidate set contains
only the name/father/mother/voter_no matches (no address, no search_text,
and only for queries of length ≥ 2), and its scoring omits both the
father/mother-substring 60 tiers and the address 50 tier: it equals the
authenticated score except that tiers 50 and 60 become the baseline 40. -/
theorem C1_text_search_spec (voters : List Voter) (q : String) (reqLimit : Nat)
    (hq : strip q = q) (hd : isDigitStr q = false) (hlen : 1 ≤ q.toList.length)
    (hlim : voters.length ≤ min reqLimit 20) (v : Voter) :
    (v ∈ api_search_voters voters q reqLimit ↔
      v ∈ voters ∧ (icontainsB v.name q || icontainsB v.father q || icontainsB v.mother q
        || icontainsB v.voter_no q || icontainsB v.address q
        || icontainsOpt v.search_text q) = true)
    ∧ (2 ≤ q.toList.length →
        (v ∈ public_api_search_voters voters q reqLimit ↔
          v ∈ voters ∧ (icontainsB v.name q || icontainsB v.father q
            || icontainsB v.mother q || icontainsB v.voter_no q) = true))
    ∧ ((textRelevance v q = 100 ↔ iexactB v.name q = true)
      ∧ (textRelevance v q = 90 ↔ iexactB v.name q = false ∧ istartsB v.name q = true)
      ∧ (textRelevance v q = 80 ↔ iexactB v.name q = false ∧ istartsB v.name q = false
          ∧ icontainsB v.name q = true)
      ∧ (textRelevance v q = 75 ↔ iexactB v.name q = false ∧ istartsB v.name q = false
          ∧ icontainsB v.name q = false ∧ icontainsB v.voter_no q = true)
      ∧ (textRelevance v q = 70 ↔ iexactB v.name q = false ∧ istartsB v.name q = false
          ∧ icontainsB v.name q = false ∧ icontainsB v.voter_no q = false
          ∧ (istartsB v.father q = true ∨ istartsB v.mother q = true))
      ∧ (textRelevance v q = 60 ↔ iexactB v.name q = false ∧ istartsB v.name q = false
          ∧ icontainsB v.name q = false ∧ icontainsB v.voter_no q = false
          ∧ istartsB v.father q = false ∧ istartsB v.mother q = false
          ∧ (icontainsB v.father q = true ∨ icontainsB v.mother q = true))
      ∧ (textRelevance v q = 50 ↔ iexactB v.name q = false ∧ istartsB v.name q = false
          ∧ icontainsB v.name q = false ∧ icontainsB v.voter_no q = false
          ∧ istartsB v.father q = false ∧ istartsB v.mother q = false
          ∧ icontainsB v.father q = false ∧ icontainsB v.mother q = false
          ∧ icontainsB v.address q = true)
      ∧ (textRelevance v q = 40 ↔ iexactB v.name q = false ∧ istartsB v.name q = false
          ∧ icontainsB v.name q = false ∧ icontainsB v.voter_no q = false
          ∧ istartsB v.father q = false ∧ istartsB v.mother q = false
          ∧ icontainsB v.father q = false ∧ icontainsB v.mother q = false
          ∧ icontainsB v.address q = false))
    ∧ ((textRelevance v q = 50 → publicTextRelevance v q = 40)
      ∧ (textRelevance v q = 60 → publicTextRelevance v q = 40)
      ∧ (textRelevance v q ≠ 50 → textRelevance v q ≠ 60 →
          publicTextRelevance v q = textRelevance v q)) := by
  have hne1 : ¬ q.toList.length < 1 := by omega
  have e1 : api_search_voters voters q reqLimit
      = (sortWith (descLE (fun v => textRelevance v q) (fun v => v.name.toList))
          (voters.filter (fun v => textMatch v q))).take (min reqLimit 50) := by
    simp only [api_search_voters, hq]
    rw [if_neg hne1, if_neg (by simp [hd])]
  have hlim50 : voters.length ≤ min reqLimit 50 := by omega
  refine ⟨?_, ?_, ?_, ?_⟩
  · rw [e1]
    exact mem_search_output _ hlim50 v
  · intro hlen2
    have hne2 : ¬ q.toList.length < 2 := by omega
    have e2 : public_api_search_voters voters q reqLimit
        = (sortWith (descLE (fun v => publicTextRelevance v q) (fun v => v.name.toList))
            (voters.filter (fun v => publicTextMatch v q))).take (min reqLimit 20) := by
      simp only [public_api_search_voters, hq]
      rw [if_neg hne2, if_neg (by simp [hd])]
    rw [e2]
    exact mem_search_output _ hlim v
  · unfold textRelevance
    split_ifs <;> simp_all
  · unfold textRelevance publicTextRelevance
    split_ifs <;> omega

/-- Witness for C1 on the query "karim" over an exact-name and a
prefix-name record. -/
theorem C1_text_search_spec_witness :
    (w1exact ∈ api_search_voters [w1exact, w1pre] "karim" 10 ↔
      w1exact ∈ [w1exact, w1pre] ∧ (icontainsB w1exact.name "karim"
        || icontainsB w1exact.father "karim" || icontainsB w1exact.mother "karim"
        || icontainsB w1exact.voter_no "karim" || icontainsB w1exact.address "karim"
        || icontainsOpt w1exact.search_text "karim") = true)
    ∧ (w1exact ∈ public_api_search_voters [w1exact, w1pre] "karim" 10 ↔
        w1exact ∈ [w1exact, w1pre] ∧ (icontainsB w1exact.name "karim"
          || icontainsB w1exact.father "karim" || icontainsB w1exact.mother "karim"
          || icontainsB w1exact.voter_no "karim") = true)
    ∧ (textRelevance w1exact "karim" = 100 ↔ iexactB w1exact.name "karim" = true)
    ∧ publicTextRelevance w1exact "karim" = textRelevance w1exact "karim" := by
  have h := C1_text_search_spec [w1exact, w1pre] "karim" 10 (by decide) (by decide)
    (by decide) (by decide) w1exact
  exact ⟨h.1, h.2.1 (by decide), h.2.2.1.1, h.2.2.2.2.2 (by decide) (by decide)⟩

theorem mem_dedupExactAux : ∀ (l seen : List String) (x : String),
    x ∈ dedupExactAux l seen → x ∈ l := by
  intro l
  induction l with
  | nil => intro seen x hx; simp [dedupExactAux] at hx
  | cons v rest ih =>
    intro seen x hx
    simp only [dedupExactAux] at hx
    by_cases h : seen.contains v
    · rw [if_pos h] at hx
      exact List.mem_cons_of_mem _ (ih _ _ hx)
    · rw [if_neg h] at hx
      rcases List.mem_cons.mp hx with h1 | h1
      · exact h1 ▸ List.mem_cons_self _ _
      · exact List.mem_cons_of_mem _ (ih _ _ h1)

theorem suggestionScope_subset {cats : List CatNode} {voters : List Voter}
    {va un up : Option Nat} {v : Voter}
    (hv : v ∈ suggestionScope cats voters va un up) : v ∈ voters := by
  unfold suggestionScope at hv
  repeat' split at hv
  all_goals first
    | exact hv
    | exact (List.mem_filter.mp hv).1

/-- Invariant of the dedup loop: when the incoming values equal their own
stripped forms, the accumulated entries stay pairwise distinct after
lowercasing (the `seen` set gates every insertion). -/
theorem suggLoop_pairwise : ∀ (vals : List String) (seen : List (List Char))
    (acc : List String) (lim : Nat),
    acc.Pairwise (fun a b => lowerList a ≠ lowerList b) →
    (∀ a ∈ acc, lowerList a ∈ seen) →
    (∀ v ∈ vals, stripList v.toList = v.toList) →
    (suggLoop vals seen acc lim).Pairwise (fun a b => lowerList a ≠ lowerList b) := by
  intro vals
  induction vals with
  | nil =>
    intro seen acc lim hacc _ _
    simp only [suggLoop]
    exact List.pairwise_reverse.mpr (hacc.imp (fun h => Ne.symm h))
  | cons v rest ih =>
    intro seen acc lim hacc hseen hws
    have hwv : stripList v.toList = v.toList := hws v (List.mem_cons_self _ _)
    have hwr : ∀ w ∈ rest, stripList w.toList = w.toList :=
      fun w hw => hws w (List.mem_cons_of_mem _ hw)
    have hv : (⟨stripList v.toList⟩ : String) = v := by
      rw [hwv]
      rfl
    simp only [suggLoop]
    by_cases h1 : (stripList v.toList).isEmpty
    · rw [if_pos h1]
      exact ih seen acc lim hacc hseen hwr
    · rw [if_neg h1]
      by_cases h2 : seen.contains (lowerList v)
      · rw [if_pos h2]
        exact ih seen acc lim hacc hseen hwr
      · rw [if_neg h2]
        have hnotin : lowerList v ∉ seen := by
          intro hmem
          exact h2 (List.elem_iff.mpr hmem)
        have hacc2 : (v :: acc).Pairwise (fun a b => lowerList a ≠ lowerList b) := by
          refine List.Pairwise.cons ?_ hacc
          intro a ha hEq
          exact hnotin (hEq ▸ hseen a ha)
        by_cases h3 : lim ≤ acc.length + 1
        · rw [if_pos h3, hv]
          exact List.pairwise_reverse.mpr (hacc2.imp (fun h => Ne.symm h))
        · rw [if_neg h3, hv]
          refine ih _ _ lim hacc2 ?_ hwr
          intro a ha
          rcases List.mem_cons.mp ha with h4 | h4
          · rw [h4]
            exact List.mem_cons_self _ _
          · exact List.mem_cons_of_mem _ (hseen a h4)

/-- Both suggestion conclusions for the shared pipeline body: the final
sort yields the two-key ordering unconditionally; the case-insensitive
distinctness of the entries additionally needs the stored values to be
their own stripped forms (dedup keys on the raw value, emits the
stripped one). -/
theorem suggestion_core_pairwise (cats : List CatNode) (voters : List Voter)
    (rawQ rawField : String) (reqLimit cap : Nat) (va un up : Option Nat) :
    ((∀ v ∈ voters, stripList (fieldValue v (normField rawField)).toList
        = (fieldValue v (normField rawField)).toList) →
      (suggestion_core cats voters rawQ rawField reqLimit cap va un up).Pairwise
        (fun a b => lowerList a ≠ lowerList b))
    ∧ (suggestion_core cats voters rawQ rawField reqLimit cap va un up).Pairwise
      (fun a b => suggGroup (strip rawQ) a < suggGroup (strip rawQ) b
        ∨ (suggGroup (strip rawQ) a = suggGroup (strip rawQ) b
            ∧ lexLe (lowerList a) (lowerList b) = true)) := by
  unfold suggestion_core
  by_cases hshort : (strip rawQ).toList.length < 2
  · rw [if_pos hshort]
    exact ⟨fun _ => List.Pairwise.nil, List.Pairwise.nil⟩
  · rw [if_neg hshort]
    constructor
    · intro hws
      have hperm := sortWith_perm
        (ascLE (fun t => suggGroup (strip rawQ) t) (fun t => lowerList t))
        (suggLoop ((dedupExact (((suggestionScope cats voters va un up).filter
          (fun v => icontainsB (fieldValue v (normField rawField)) (strip rawQ))).map
            (fun v => fieldValue v (normField rawField)))).take (min reqLimit cap * 2))
          [] [] (min reqLimit cap))
      refine (hperm.pairwise_iff (fun h => Ne.symm h)).mpr ?_
      refine suggLoop_pairwise _ [] [] _ List.Pairwise.nil (by intro a ha; simp at ha) ?_
      intro w hw
      have hw2 := (List.take_sublist _ _).mem hw
      have hw3 := mem_dedupExactAux _ _ _ hw2
      obtain ⟨u, hu, rfl⟩ := List.mem_map.mp hw3
      exact hws u (suggestionScope_subset (List.mem_filter.mp hu).1)
    · have hs := sortWith_sorted
        (ascLE (fun t => suggGroup (strip rawQ) t) (fun t => lowerList t))
        (ascLE_total _ _) (ascLE_trans _ _)
        (suggLoop ((dedupExact (((suggestionScope cats voters va un up).filter
          (fun v => icontainsB (fieldValue v (normField rawField)) (strip rawQ))).map
            (fun v => fieldValue v (normField rawField)))).take (min reqLimit cap * 2))
          [] [] (min reqLimit cap))
      exact hs.imp (fun hab => (ascLE_iff _ _ _ _).mp hab)

/-- C8 counterexample: the dedup key is the raw (unstripped) lowercase
value but the emitted entry is stripped, so the raw values "AB" and " ab"
survive dedup and emit the entries "AB" and "ab", which differ only by
case — falsifying the claim's dedup guarantee. -/
theorem C8_suggestions_cex :
    api_search_suggestions [] [c8voterA, c8voterB] "ab" "name" 10 none none none
      = ["AB", "ab"]
    ∧ ("AB" : String) ≠ "ab"
    ∧ lowerList "AB" = lowerList "ab" := by
  refine ⟨by decide, by decide, by decide⟩

/-- C8 amended: unconditionally, both endpoints return their list sorted
so that entries whose lowercase form starts with the lowercase query
precede all others, ascending by lowercase form within each group; and
when the stored field values carry no surrounding whitespace (so stripping
is the identity on them), no two returned entries share a lowercase
form. -/
theorem C8_suggestions_spec (cats : List CatNode) (voters : List Voter)
    (rawQ rawField : String) (reqLimit : Nat) (va un up : Option Nat) :
    ((∀ v ∈ voters, stripList (fieldValue v (normField rawField)).toList
        = (fieldValue v (normField rawField)).toList) →
      (api_search_suggestions cats voters rawQ rawField reqLimit va un up).Pairwise
        (fun a b => lowerList a ≠ lowerList b))
    ∧ (api_search_suggestions cats voters rawQ rawField reqLimit va un up).Pairwise
      (fun a b => suggGroup (strip rawQ) a < suggGroup (strip rawQ) b
        ∨ (suggGroup (strip rawQ) a = suggGroup (strip rawQ) b
            ∧ lexLe (lowerList a) (lowerList b) = true))
    ∧ ((∀ v ∈ voters, stripList (fieldValue v (normField rawField)).toList
        = (fieldValue v (normField rawField)).toList) →
      (public_api_suggestions cats voters rawQ rawField reqLimit va un up).Pairwise
        (fun a b => lowerList a ≠ lowerList b))
    ∧ (public_api_suggestions cats voters rawQ rawField reqLimit va un up).Pairwise
      (fun a b => suggGroup (strip rawQ) a < suggGroup (strip rawQ) b
        ∨ (suggGroup (strip rawQ) a = suggGroup (strip rawQ) b
            ∧ lexLe (lowerList a) (lowerList b) = true)) := by
  have h15 := suggestion_core_pairwise cats voters rawQ rawField reqLimit 15 va un up
  have h10 := suggestion_core_pairwise cats voters rawQ rawField reqLimit 10 va un up
  exact ⟨h15.1, h15.2, h10.1, h10.2⟩

/-- Witness for C8 over a whitespace-free store, the dedup hypotheses
discharged. -/
theorem C8_suggestions_spec_witness :
    (api_search_suggestions [] [c10voter] "ka" "name" 10 none none none).Pairwise
      (fun a b => lowerList a ≠ lowerList b)
    ∧ (api_search_suggestions [] [c10voter] "ka" "name" 10 none none none).Pairwise
      (fun a b => suggGroup (strip "ka") a < suggGroup (strip "ka") b
        ∨ (suggGroup (strip "ka") a = suggGroup (strip "ka") b
            ∧ lexLe (lowerList a) (lowerList b) = true))
    ∧ (public_api_suggestions [] [c10voter] "ka" "name" 10 none none none).Pairwise
      (fun a b => lowerList a ≠ lowerList b)
    ∧ (public_api_suggestions [] [c10voter] "ka" "name" 10 none none none).Pairwise
      (fun a b => suggGroup (strip "ka") a < suggGroup (strip "ka") b
        ∨ (suggGroup (strip "ka") a = suggGroup (strip "ka") b
            ∧ lexLe (lowerList a) (lowerList b) = true)) := by
  have h := C8_suggestions_spec [] [c10voter] "ka" "name" 10 none none none
  exact ⟨h.1 (by decide), h.2.1, h.2.2.1 (by decide), h.2.2.2⟩

end VoterApp
